import Mathlib

/-!
Shallow embedding of `src/mempool/sync/sync.rs` of `cusf-enforcer-mempool`:
the mempool synchronization core.  Identifiers keep the Rust names where
Lean allows.  Hashes and amounts are modelled as `Nat` (`Amount` is sats;
`bitcoin::Amount` arithmetic never overflows in the ranges relevant here,
and `checked_sub` is modelled explicitly).  Container types owned by other
modules of the crate (`Mempool`, `RequestQueue`) are not part of the given
source file; they are modelled from the spec's data-model section, as
flagged in their doc comments.  Divergence of the Rust code (a `todo!()`
or an out-of-bounds index, both of which panic) is modelled by a dedicated
`panicked` outcome / `Option.none`, distinct from returned errors.
-/

abbrev Txid := Nat
abbrev BlockHash := Nat
abbrev Amount := Nat

/-- `bitcoin::Amount::checked_sub`: `none` exactly when the subtraction
would go negative. -/
def Amount.checked_sub (a b : Amount) : Option Amount :=
  if b ≤ a then some (a - b) else none

/-- `bitcoin::OutPoint { txid, vout }`. -/
structure OutPoint where
  txid : Txid
  vout : Nat
  deriving DecidableEq

/-- A transaction input; only the field the sync core reads. -/
structure TxIn where
  previous_output : OutPoint
  deriving DecidableEq

/-- A transaction output; only the field the sync core reads. -/
structure TxOut where
  value : Amount
  deriving DecidableEq

/-- `bitcoin::Transaction`.  `compute_txid()` is modelled as the abstract
field `txid` (the sync core only ever compares txids, never recomputes
them from serialized bytes). -/
structure Transaction where
  txid : Txid
  input : List TxIn
  output : List TxOut
  deriving DecidableEq

/-- `bip300301::client::Block`: the fields the sync core reads. -/
structure Block where
  hash : BlockHash
  previousblockhash : Option BlockHash
  tx : List Txid
  deriving DecidableEq

/-- `BlockHash::all_zeros()`. -/
def BlockHash.all_zeros : BlockHash := 0

/-- Finite maps (`HashMap`) are modelled as association lists with
key-dedup on insert; `List.lookup` is the read operation. -/
def mapInsert {α : Type} (k : Nat) (v : α) (m : List (Nat × α)) : List (Nat × α) :=
  (k, v) :: m.filter (fun p => p.1 != k)

def mapRemove {α : Type} (k : Nat) (m : List (Nat × α)) : List (Nat × α) :=
  m.filter (fun p => p.1 != k)

/-- `RequestItem`: `Block(hash)` or `Tx(txid, wanted_in_mempool)`. -/
inductive RequestItem where
  | block (hash : BlockHash)
  | tx (txid : Txid) (wanted : Bool)
  deriving DecidableEq

/-- Modelled from the spec: `RequestQueue` is crate code outside the given
source file.  Per §3 it is an ordered collection of pending fetches with
append-back, insert-front for priority, remove-by-key, and de-duplication
by structural equality of `RequestItem`.  We model it as a duplicate-free
list: `push_back` appends when absent, `push_front` moves-or-inserts to
the front (the spec's "schedules ... strictly ahead of previously-queued
non-priority requests"), `remove` deletes by structural equality. -/
abbrev RequestQueue := List RequestItem

def RequestQueue.push_back (q : RequestQueue) (i : RequestItem) : RequestQueue :=
  if i ∈ q then q else q ++ [i]

def RequestQueue.push_front (q : RequestQueue) (i : RequestItem) : RequestQueue :=
  i :: q.filter (fun j => j != i)

def RequestQueue.remove (q : RequestQueue) (i : RequestItem) : RequestQueue :=
  q.filter (fun j => j != i)

/-- `zmq::SequenceMessage`.  The numeric sequence numbers are carried but
ignored by every consumer in this file, exactly as in the source. -/
inductive SequenceMessage where
  | blockHashConnected (hash : BlockHash) (seq : Nat)
  | blockHashDisconnected (hash : BlockHash) (seq : Nat)
  | txHashAdded (txid : Txid) (mempool_seq : Nat) (zmq_seq : Nat)
  | txHashRemoved (txid : Txid) (mempool_seq : Nat) (zmq_seq : Nat)
  deriving DecidableEq

/-- Modelled from the spec: the `chain` component of the `Mempool`
container (crate code outside the given source file): `tip` is the best
block hash, `blocks` an append-only block cache keyed by hash (§3). -/
structure Chain where
  tip : BlockHash
  blocks : List (BlockHash × Block)
  deriving DecidableEq

/-- Modelled from the spec: the `Mempool` container (crate code outside
the given source file).  Per §3, `txs` maps txid to (transaction,
fee-delta); mutators are `insert(tx, fee)` and
`remove(txid) -> Option<removed>` (no error in the modelled contract, so
the `Result` wrappers of the source are always `Ok`). -/
structure Mempool where
  chain : Chain
  txs : List (Txid × (Transaction × Nat))
  deriving DecidableEq

def Mempool.insert (mp : Mempool) (tx : Transaction) (fee : Nat) : Mempool :=
  { mp with txs := mapInsert tx.txid (tx, fee) mp.txs }

def Mempool.remove (mp : Mempool) (txid : Txid) :
    Option (Transaction × Nat) × Mempool :=
  (List.lookup txid mp.txs, { mp with txs := mapRemove txid mp.txs })

/-- `SyncState` (sync.rs lines 26–32). -/
structure SyncState where
  request_queue : RequestQueue
  seq_message_queue : List SequenceMessage
  tx_cache : List (Txid × Transaction)
  deriving DecidableEq

/-- `SyncTaskError` (sync.rs lines 34–55): the variants reachable in the
modelled fragment.  `ε` is the enforcer's `AcceptTxError` type. -/
inductive SyncTaskError (ε : Type) where
  | combinedStreamEnded
  | cusfEnforcer (e : ε)
  | feeOverflow
  deriving DecidableEq

/-- Result of a step of the sync core: a value, a returned `Err`, or a
panic (`todo!()` / out-of-bounds indexing), which in Rust aborts the task
without producing a state. -/
inductive Outcome (ε : Type) (α : Type) where
  | ok (val : α)
  | error (e : SyncTaskError ε)
  | panicked
  deriving DecidableEq

/-- The enforcer's `accept_tx`: accept/reject decision or a policy error.
(`CusfEnforcer::accept_tx` takes `&mut self`; no claim in this development
depends on enforcer-internal state, so it is modelled as a function.) -/
abbrev Enforcer (ε : Type) := Transaction → Except ε Bool

/-- `handle_seq_message` (sync.rs lines 57–102).  The mempool is only read
(`chain.blocks.contains_key`), never written, which the return type makes
explicit: only the `SyncState` is produced. -/
def handle_seq_message (mempool : Mempool) (sync_state : SyncState)
    (seq_msg : SequenceMessage) : SyncState :=
  let sync_state :=
    match seq_msg with
    | .blockHashConnected block_hash _ =>
      { sync_state with
        request_queue :=
          RequestQueue.push_back sync_state.request_queue (.block block_hash) }
    | .blockHashDisconnected block_hash _ =>
      if (List.lookup block_hash mempool.chain.blocks).isSome then
        sync_state
      else
        { sync_state with
          request_queue :=
            RequestQueue.push_back sync_state.request_queue (.block block_hash) }
    | .txHashAdded txid _ _ =>
      { sync_state with
        request_queue :=
          RequestQueue.push_back sync_state.request_queue (.tx txid true) }
    | .txHashRemoved txid _ _ =>
      { sync_state with
        request_queue :=
          RequestQueue.remove sync_state.request_queue (.tx txid true) }
  { sync_state with
    seq_message_queue := sync_state.seq_message_queue ++ [seq_msg] }

/-- `handle_resp_tx` (sync.rs lines 104–107). -/
def handle_resp_tx (sync_state : SyncState) (tx : Transaction) : SyncState :=
  { sync_state with tx_cache := mapInsert tx.txid tx sync_state.tx_cache }

/-- The per-txid body of the matching-connect loop of `handle_resp_block`
(sync.rs lines 118–123): remove the txid from the mempool and drop its
pending `Tx(txid, true)` request. -/
def blockTxStep (acc : Mempool × SyncState) (txid : Txid) :
    Mempool × SyncState :=
  ((acc.1.remove txid).2,
   { acc.2 with
     request_queue :=
       RequestQueue.remove acc.2.request_queue (.tx txid true) })

/-- `handle_resp_block` (sync.rs lines 109–143).  `none` models the panic
of the `todo!()` in the matching-disconnect branch (reached exactly when
that branch's `for` loop body executes, i.e. the block has at least one
transaction); otherwise the new mempool and sync state are returned. -/
def handle_resp_block (mempool : Mempool) (sync_state : SyncState)
    (block : Block) : Option (Mempool × SyncState) := do
  let (mempool, sync_state) ←
    match sync_state.seq_message_queue with
    | SequenceMessage.blockHashConnected block_hash _ :: rest =>
      if block_hash = block.hash then
        let (mempool, sync_state) := block.tx.foldl blockTxStep
          (mempool, sync_state)
        some ({ mempool with chain := { mempool.chain with tip := block.hash } },
              { sync_state with seq_message_queue := rest })
      else
        some (mempool, sync_state)
    | SequenceMessage.blockHashDisconnected block_hash _ :: rest =>
      if block_hash = block.hash ∧ mempool.chain.tip = block.hash then
        match block.tx with
        | [] =>
          some ({ mempool with chain :=
                   { mempool.chain with
                     tip := block.previousblockhash.getD BlockHash.all_zeros } },
                { sync_state with seq_message_queue := rest })
        | _ :: _ => none
      else
        some (mempool, sync_state)
    | _ => some (mempool, sync_state)
  some ({ mempool with chain :=
           { mempool.chain with
             blocks := mapInsert block.hash block mempool.chain.blocks } },
        sync_state)

/-- The source-tx lookup of fee resolution (sync.rs lines 165–175): the
input's source transaction is looked up in `tx_cache` first, then in the
mempool's `txs` map. -/
def lookupSource (mempool : Mempool) (tx_cache : List (Txid × Transaction))
    (input_txid : Txid) : Option Transaction :=
  match List.lookup input_txid tx_cache with
  | some input_tx => some input_tx
  | none =>
    match List.lookup input_txid mempool.txs with
    | some (input_tx, _) => some input_tx
    | none => none

/-- The input-scan loop of `try_add_tx_from_cache` (sync.rs lines
160–178), carrying the accumulators `value_in` (set to `none` forever
once an input's source is unresolved) and `input_txs_needed` (missing
source txids, in scan order).  The outer `none` models the panic of the
unchecked indexing `input_tx.output[vout as usize]` when `vout` is out of
bounds; the loop continues past unresolved inputs, so it collects all
missing txids in one pass. -/
def scanInputs (mempool : Mempool) (tx_cache : List (Txid × Transaction)) :
    List TxIn → Option Amount → List Txid → Option (Option Amount × List Txid)
  | [], value_in, input_txs_needed => some (value_in, input_txs_needed)
  | input :: rest, value_in, input_txs_needed =>
    match lookupSource mempool tx_cache input.previous_output.txid with
    | none =>
      scanInputs mempool tx_cache rest none
        (input_txs_needed ++ [input.previous_output.txid])
    | some input_tx =>
      match input_tx.output.get? input.previous_output.vout with
      | none => none
      | some txout =>
        scanInputs mempool tx_cache rest
          (value_in.map (fun v => v + txout.value)) input_txs_needed

/-- sync.rs line 158: `let (mut value_in, value_out) =
(Some(Amount::ZERO), Amount::ZERO);` — `value_out` is initialised to zero
and, in the source as given, never modified afterwards. -/
def value_out : Amount := 0

/-- The priority front-insertion loop shared by fee resolution (sync.rs
lines 179–183) and the response handler (lines 283–287, 306–310): each
collected txid, iterated in reverse, is pushed to the queue front as a
non-priority-flag `Tx(txid, false)` request, so the first collected txid
ends up frontmost. -/
def pushPriority (input_txs_needed : List Txid) (sync_state : SyncState) :
    SyncState :=
  input_txs_needed.reverse.foldl
    (fun st input_txid =>
      { st with
        request_queue :=
          RequestQueue.push_front st.request_queue (.tx input_txid false) })
    sync_state

/-- `try_add_tx_from_cache` (sync.rs lines 145–204).  Returns `ok (true, …)`
if the tx was added successfully, `ok (false, …)` for "no progress" (tx not
cached, or some input source unresolved).  The `todo!()` in the rejection
branch and the unchecked output indexing are modelled as `panicked`. -/
def try_add_tx_from_cache {ε : Type} (enforcer : Enforcer ε)
    (mempool : Mempool) (sync_state : SyncState) (txid : Txid) :
    Outcome ε (Bool × Mempool × SyncState) :=
  match List.lookup txid sync_state.tx_cache with
  | none => .ok (false, mempool, sync_state)
  | some tx =>
    match scanInputs mempool sync_state.tx_cache tx.input (some 0) [] with
    | none => .panicked
    | some (value_in, input_txs_needed) =>
      let sync_state := pushPriority input_txs_needed sync_state
      match value_in with
      | none => .ok (false, mempool, sync_state)
      | some value_in =>
        match Amount.checked_sub value_in value_out with
        | none => .error .feeOverflow
        | some fee_delta =>
          match enforcer tx with
          | .error e => .error (.cusfEnforcer e)
          | .ok true => .ok (true, mempool.insert tx fee_delta, sync_state)
          | .ok false => .panicked

/-- `try_apply_next_seq_message` (sync.rs lines 206–256).  Returns
`ok (true, …)` if the front sequence message was applied (and popped),
`ok (false, …)` otherwise.  The `todo!()` of the disconnect re-admission
loop is `panicked` (reached exactly when the cached block has at least one
transaction). -/
def try_apply_next_seq_message {ε : Type} (enforcer : Enforcer ε)
    (mempool : Mempool) (sync_state : SyncState) :
    Outcome ε (Bool × Mempool × SyncState) :=
  match sync_state.seq_message_queue with
  | [] => .ok (false, mempool, sync_state)
  | SequenceMessage.blockHashDisconnected block_hash _ :: rest =>
    if mempool.chain.tip ≠ block_hash then
      .ok (false, mempool, sync_state)
    else
      match List.lookup block_hash mempool.chain.blocks with
      | none => .ok (false, mempool, sync_state)
      | some block =>
        match block.tx with
        | _ :: _ => .panicked
        | [] =>
          .ok (true,
               { mempool with chain :=
                  { mempool.chain with
                    tip := block.previousblockhash.getD BlockHash.all_zeros } },
               { sync_state with seq_message_queue := rest })
  | SequenceMessage.txHashAdded txid _ _ :: rest =>
    match try_add_tx_from_cache enforcer mempool sync_state txid with
    | .panicked => .panicked
    | .error e => .error e
    | .ok (res, mempool, sync_state) =>
      if res then
        .ok (true, mempool, { sync_state with seq_message_queue := rest })
      else
        .ok (false, mempool, sync_state)
  | SequenceMessage.txHashRemoved txid _ _ :: rest =>
    let (removed, mempool) := mempool.remove txid
    if removed.isSome then
      .ok (true, mempool, { sync_state with seq_message_queue := rest })
    else
      .ok (false, mempool, sync_state)
  | SequenceMessage.blockHashConnected _ _ :: _ =>
    .ok (false, mempool, sync_state)

/-- `hashlink::LinkedHashSet::replace`: inserts the value, moving it to
the back of the iteration order if it was already present. -/
def lhsReplace (s : List Txid) (x : Txid) : List Txid :=
  s.filter (fun y => y != x) ++ [x]

/-- The unresolved-input collection of `handle_resp` (sync.rs lines
272–280 and 296–304): for a tx fetched as "wanted in mempool", every
input txid not already in `tx_cache` is `replace`d into the
`LinkedHashSet` accumulator. -/
def needStep (tx_cache : List (Txid × Transaction)) (acc : List Txid)
    (input : TxIn) : List Txid :=
  if (List.lookup input.previous_output.txid tx_cache).isSome then acc
  else lhsReplace acc input.previous_output.txid

def collectNeeded (tx_cache : List (Txid × Transaction)) (tx : Transaction)
    (acc : List Txid) : List Txid :=
  tx.input.foldl (needStep tx_cache) acc

/-- The `Single(ResponseItem::Tx(tx, in_mempool))` arm of `handle_resp`
(sync.rs lines 294–311): collect unresolved inputs (against the cache
before insertion), insert the tx into `tx_cache`, then front-insert the
collected txids in reverse order. -/
def handle_resp_single_tx (sync_state : SyncState) (tx : Transaction)
    (in_mempool : Bool) : SyncState :=
  let input_txs_needed :=
    if in_mempool then collectNeeded sync_state.tx_cache tx [] else []
  let sync_state := handle_resp_tx sync_state tx
  pushPriority input_txs_needed sync_state

/-- The `BatchTx(txs)` arm of `handle_resp` (sync.rs lines 269–288): the
per-element logic of `handle_resp_single_tx`, but the unresolved-input
set is accumulated across the whole batch (each element's inputs checked
against the cache as it stands at that element, which already contains
the batch's earlier transactions) and the priority front-insertions are
performed once, after the whole batch. -/
def batchStep (acc : List Txid × SyncState) (p : Transaction × Bool) :
    List Txid × SyncState :=
  let input_txs_needed :=
    if p.2 then collectNeeded acc.2.tx_cache p.1 acc.1 else acc.1
  (input_txs_needed, handle_resp_tx acc.2 p.1)

def batchNeeded (sync_state : SyncState) (txs : List (Transaction × Bool)) :
    List Txid :=
  (txs.foldl batchStep ([], sync_state)).1

def handle_resp_batch (sync_state : SyncState)
    (txs : List (Transaction × Bool)) : SyncState :=
  let (input_txs_needed, sync_state) := txs.foldl batchStep ([], sync_state)
  pushPriority input_txs_needed sync_state

/-- `ResponseItem` and `BatchedResponseItem` (crate types consumed here;
shapes per the source's match arms and the spec's §3). -/
inductive ResponseItem where
  | block (b : Block)
  | tx (t : Transaction) (in_mempool : Bool)

inductive BatchedResponseItem where
  | batchTx (txs : List (Transaction × Bool))
  | single (item : ResponseItem)

/-- The `while try_apply_next_seq_message … {}` drain at the end of
`handle_resp` (sync.rs lines 313–315), with explicit fuel.  Every
successful application pops one element of `seq_message_queue` and
nothing in the loop pushes onto it, so fuel `seq_message_queue.length`
is enough: with that fuel, fuel exhaustion coincides with an empty queue,
where the next call would report no progress anyway. -/
def applyLoop {ε : Type} (enforcer : Enforcer ε) :
    Nat → Mempool → SyncState → Outcome ε (Mempool × SyncState)
  | 0, mempool, sync_state => .ok (mempool, sync_state)
  | fuel + 1, mempool, sync_state =>
    match try_apply_next_seq_message enforcer mempool sync_state with
    | .panicked => .panicked
    | .error e => .error e
    | .ok (true, mempool, sync_state) => applyLoop enforcer fuel mempool sync_state
    | .ok (false, mempool, sync_state) => .ok (mempool, sync_state)

/-- `handle_resp` (sync.rs lines 258–317): dispatch on the response shape,
then drain the apply loop.  (The mempool write lock of the source
serializes this whole function; locking itself is not modelled.) -/
def handle_resp {ε : Type} (enforcer : Enforcer ε) (mempool : Mempool)
    (sync_state : SyncState) (resp : BatchedResponseItem) :
    Outcome ε (Mempool × SyncState) :=
  match resp with
  | .batchTx txs =>
    let sync_state := handle_resp_batch sync_state txs
    applyLoop enforcer sync_state.seq_message_queue.length mempool sync_state
  | .single (.block block) =>
    match handle_resp_block mempool sync_state block with
    | none => .panicked
    | some (mempool, sync_state) =>
      applyLoop enforcer sync_state.seq_message_queue.length mempool sync_state
  | .single (.tx tx in_mempool) =>
    let sync_state := handle_resp_single_tx sync_state tx in_mempool
    applyLoop enforcer sync_state.seq_message_queue.length mempool sync_state

/-! ### Concrete instances used by witnesses and counterexamples,
and derived queue combinators -/

/-- The request items generated for a list of needed source txids. -/
def txKeys (ts : List Txid) : List RequestItem :=
  ts.map (fun t => RequestItem.tx t false)

/-- First-occurrence deduplication of the generated request items. -/
def dedupFirstKeys : List Txid → List RequestItem
  | [] => []
  | t :: ts =>
    RequestItem.tx t false ::
      (dedupFirstKeys ts).filter (fun j => j != RequestItem.tx t false)

/-- The combined effect on a queue of front-pushing the reversed list:
the first collected txid ends up frontmost. -/
def frontInsert (ts : List Txid) (q : RequestQueue) : RequestQueue :=
  match ts with
  | [] => q
  | t :: ts =>
    RequestItem.tx t false ::
      (frontInsert ts q).filter (fun j => j != RequestItem.tx t false)

/-- An enforcer that accepts every transaction. -/
def wEnf : Enforcer Unit := fun _ => .ok true

/-- An empty mempool at tip 0. -/
def wMp : Mempool := ⟨⟨0, []⟩, []⟩

/-- A transaction spending output 0 of the (never fetched) txid 200. -/
def wTxU : Transaction := ⟨2, [⟨⟨200, 0⟩⟩], [⟨100⟩]⟩

/-- State whose front event adds tx 2, whose only unresolved input is
txid 200. -/
def wSt0 : SyncState := ⟨[], [.txHashAdded 2 0 0], [(2, wTxU)]⟩

/-- The state after one no-progress apply step on `wSt0`: the missing
source txid 200 is now queued as a priority fetch. -/
def wSt1 : SyncState := ⟨[.tx 200 false], [.txHashAdded 2 0 0], [(2, wTxU)]⟩

/-- A state whose front event adds txid 9, which is not in the cache. -/
def wSt2 : SyncState := ⟨[], [.txHashAdded 9 0 0], [(2, wTxU)]⟩

/-- A mempool holding tx 2 with fee-delta 50. -/
def wMpR : Mempool := ⟨⟨0, []⟩, [(2, (wTxU, 50))]⟩

/-- A state whose front event removes txid 3 (absent from `wMpR`). -/
def wStR : SyncState := ⟨[], [.txHashRemoved 3 0 0], []⟩

/-- Source transactions worth 5000 and 3000 sats, and a transaction
spending both with a single 7000-sat output. -/
def cTxA : Transaction := ⟨100, [], [⟨5000⟩]⟩

def cTxB : Transaction := ⟨101, [], [⟨3000⟩]⟩

def cTxT : Transaction := ⟨1, [⟨⟨100, 0⟩⟩, ⟨⟨101, 0⟩⟩], [⟨7000⟩]⟩

/-- A cache containing `cTxT` and both of its input sources. -/
def cSt : SyncState := ⟨[], [], [(1, cTxT), (100, cTxA), (101, cTxB)]⟩

/-- A transaction spending the out-of-range output 5 of `cTxA` (which
has a single output). -/
def oTx : Transaction := ⟨3, [⟨⟨100, 5⟩⟩], []⟩

/-- A cache containing `oTx` and its input source `cTxA`. -/
def oSt : SyncState := ⟨[], [], [(3, oTx), (100, cTxA)]⟩

/-- A block containing txid 2, matching the connect event at the front of
`wStC8`. -/
def wBlkC8 : Block := ⟨7, some 6, [2]⟩

def wStC8 : SyncState := ⟨[], [.blockHashConnected 7 0], []⟩

/-- A state whose front event removes txid 2 (present in `wMpR`). -/
def wStR2 : SyncState := ⟨[], [.txHashRemoved 2 0 0], []⟩

/-- A block with one transaction, matching the disconnect event in `dSt`
while the tip of `dMp` equals its hash. -/
def dBlk : Block := ⟨7, some 6, [42]⟩

def dMp : Mempool := ⟨⟨7, []⟩, []⟩

def dSt : SyncState := ⟨[], [.blockHashDisconnected 7 0], []⟩

/-- A state whose front is a connect event for hash 7 with a pending
request for the block's txid 2. -/
def wSt4 : SyncState := ⟨[.tx 2 true], [.blockHashConnected 7 0], []⟩

/-- Expected mempool after `handle_resp_block wMpR wSt4 wBlkC8`. -/
def wMp4A : Mempool := ⟨⟨7, [(7, wBlkC8)]⟩, []⟩

/-- Expected sync state after `handle_resp_block wMpR wSt4 wBlkC8`. -/
def wSt4A : SyncState := ⟨[], [], []⟩

/-! ### Container lemmas -/

theorem lookup_none_mapRemove {α : Type} (k : Nat) (m : List (Nat × α))
    (h : List.lookup k m = none) : mapRemove k m = m := by
  induction m with
  | nil => rfl
  | cons p m ih =>
    obtain ⟨a, b⟩ := p
    rw [List.lookup_cons] at h
    by_cases hak : k = a
    · simp [hak] at h
    · have hne : (k == a) = false := by simpa using hak
      rw [hne] at h
      have hne2 : (a != k) = true := by
        simp only [bne_iff_ne, ne_eq]
        exact fun heq => hak heq.symm
      simp only [mapRemove, List.filter_cons, hne2, if_true]
      simpa [mapRemove] using ih h

theorem lookup_mapRemove_self {α : Type} (k : Nat) (m : List (Nat × α)) :
    List.lookup k (mapRemove k m) = none := by
  induction m with
  | nil => rfl
  | cons p m ih =>
    obtain ⟨a, b⟩ := p
    by_cases hak : a = k
    · have : (a != k) = false := by simpa using hak
      simp only [mapRemove, List.filter_cons, this, if_false]
      simpa [mapRemove] using ih
    · have hne : (a != k) = true := by simpa using hak
      have hka : (k == a) = false := by
        simpa using fun heq => hak heq.symm
      simp only [mapRemove, List.filter_cons, hne, if_true, List.lookup_cons, hka]
      simpa [mapRemove] using ih

theorem lookup_mapRemove_none {α : Type} (t k : Nat) (m : List (Nat × α))
    (h : List.lookup t m = none) : List.lookup t (mapRemove k m) = none := by
  induction m with
  | nil => rfl
  | cons p m ih =>
    obtain ⟨a, b⟩ := p
    rw [List.lookup_cons] at h
    by_cases hta : t = a
    · simp [hta] at h
    · have hta2 : (t == a) = false := by simpa using hta
      rw [hta2] at h
      by_cases hak : a = k
      · have : (a != k) = false := by simpa using hak
        simp only [mapRemove, List.filter_cons, this, if_false]
        simpa [mapRemove] using ih h
      · have hne : (a != k) = true := by simpa using hak
        simp only [mapRemove, List.filter_cons, hne, if_true, List.lookup_cons, hta2]
        simpa [mapRemove] using ih h

theorem lookup_mapInsert_self {α : Type} (k : Nat) (v : α) (m : List (Nat × α)) :
    List.lookup k (mapInsert k v m) = some v := by
  simp [mapInsert, List.lookup]

theorem notMem_rqRemove_self (q : RequestQueue) (i : RequestItem) :
    i ∉ RequestQueue.remove q i := by
  intro h
  have := (List.mem_filter.mp h).2
  simp at this

theorem notMem_rqRemove_mono (q : RequestQueue) (i j : RequestItem)
    (h : i ∉ q) : i ∉ RequestQueue.remove q j := by
  intro hmem
  exact h (List.mem_filter.mp hmem).1

/-! ### Priority front-insertion: closed form and idempotence -/

theorem pushPriority_cons (t : Txid) (ts : List Txid) (st : SyncState) :
    pushPriority (t :: ts) st =
      { pushPriority ts st with
        request_queue :=
          RequestQueue.push_front (pushPriority ts st).request_queue
            (.tx t false) } := by
  simp [pushPriority, List.foldl_append]

theorem pushPriority_request_queue (ts : List Txid) (st : SyncState) :
    (pushPriority ts st).request_queue = frontInsert ts st.request_queue := by
  induction ts with
  | nil => rfl
  | cons t ts ih =>
    rw [pushPriority_cons]
    simp only [frontInsert, RequestQueue.push_front, ih]

theorem pushPriority_seq_message_queue (ts : List Txid) (st : SyncState) :
    (pushPriority ts st).seq_message_queue = st.seq_message_queue := by
  induction ts with
  | nil => rfl
  | cons t ts ih => rw [pushPriority_cons]; exact ih

theorem pushPriority_tx_cache (ts : List Txid) (st : SyncState) :
    (pushPriority ts st).tx_cache = st.tx_cache := by
  induction ts with
  | nil => rfl
  | cons t ts ih => rw [pushPriority_cons]; exact ih

theorem frontInsert_closed (ts : List Txid) (q : RequestQueue) :
    frontInsert ts q =
      dedupFirstKeys ts ++ q.filter (fun j => !((txKeys ts).contains j)) := by
  induction ts generalizing q with
  | nil => simp [frontInsert, dedupFirstKeys, txKeys]
  | cons t ts ih =>
    simp only [frontInsert, dedupFirstKeys, ih, List.filter_append,
      List.cons_append]
    congr 1
    congr 1
    rw [List.filter_filter]
    apply List.filter_congr
    intro j _
    simp only [txKeys, List.map_cons, List.contains_cons, Bool.not_or, bne]

theorem mem_dedupFirstKeys {x : RequestItem} {ts : List Txid}
    (h : x ∈ dedupFirstKeys ts) : x ∈ txKeys ts := by
  induction ts with
  | nil => simp [dedupFirstKeys] at h
  | cons t ts ih =>
    simp only [dedupFirstKeys, List.mem_cons] at h
    rcases h with h | h
    · simp [txKeys, h]
    · have := ih (List.mem_filter.mp h).1
      simp only [txKeys, List.map_cons, List.mem_cons]
      exact Or.inr this

theorem frontInsert_idem (ts : List Txid) (q : RequestQueue) :
    frontInsert ts (frontInsert ts q) = frontInsert ts q := by
  rw [frontInsert_closed, frontInsert_closed ts q, List.filter_append]
  have h1 : (dedupFirstKeys ts).filter
      (fun j => !((txKeys ts).contains j)) = [] := by
    rw [List.filter_eq_nil_iff]
    intro a ha
    simpa using mem_dedupFirstKeys ha
  have h2 : (q.filter (fun j => !((txKeys ts).contains j))).filter
        (fun j => !((txKeys ts).contains j))
      = q.filter (fun j => !((txKeys ts).contains j)) := by
    rw [List.filter_filter]
    congr 1
    funext j
    exact Bool.and_self _
  rw [h1, h2, List.nil_append]

/-! ### The collected needed-txid lists are duplicate-free -/

theorem lhsReplace_nodup (s : List Txid) (x : Txid) (h : s.Nodup) :
    (lhsReplace s x).Nodup := by
  unfold lhsReplace
  rw [List.nodup_append]
  refine ⟨h.filter _, List.nodup_singleton x, ?_⟩
  intro a ha hb
  have hax : a = x := by simpa using hb
  have := (List.mem_filter.mp ha).2
  simp [hax] at this

theorem needStep_nodup (tx_cache : List (Txid × Transaction))
    (acc : List Txid) (input : TxIn) (h : acc.Nodup) :
    (needStep tx_cache acc input).Nodup := by
  unfold needStep
  split
  · exact h
  · exact lhsReplace_nodup _ _ h

theorem foldl_needStep_nodup (tx_cache : List (Txid × Transaction)) :
    ∀ (inputs : List TxIn) (acc : List Txid), acc.Nodup →
      (inputs.foldl (needStep tx_cache) acc).Nodup := by
  intro inputs
  induction inputs with
  | nil => intro acc h; exact h
  | cons input inputs ih =>
    intro acc h
    exact ih _ (needStep_nodup tx_cache acc input h)

theorem collectNeeded_nodup (tx_cache : List (Txid × Transaction))
    (tx : Transaction) (acc : List Txid) (h : acc.Nodup) :
    (collectNeeded tx_cache tx acc).Nodup :=
  foldl_needStep_nodup tx_cache tx.input acc h

theorem foldl_batchStep_nodup :
    ∀ (txs : List (Transaction × Bool)) (acc : List Txid × SyncState),
      acc.1.Nodup → (txs.foldl batchStep acc).1.Nodup := by
  intro txs
  induction txs with
  | nil => intro acc h; exact h
  | cons p txs ih =>
    intro acc h
    apply ih
    unfold batchStep
    dsimp only
    split
    · exact collectNeeded_nodup _ _ _ h
    · exact h

theorem batchNeeded_nodup (sync_state : SyncState)
    (txs : List (Transaction × Bool)) : (batchNeeded sync_state txs).Nodup :=
  foldl_batchStep_nodup txs ([], sync_state) List.nodup_nil

theorem dedupFirstKeys_of_nodup {ts : List Txid} (h : ts.Nodup) :
    dedupFirstKeys ts = txKeys ts := by
  induction ts with
  | nil => rfl
  | cons t ts ih =>
    rw [List.nodup_cons] at h
    show RequestItem.tx t false ::
        (dedupFirstKeys ts).filter (fun j => j != RequestItem.tx t false)
      = txKeys (t :: ts)
    rw [ih h.2]
    have h3 : (txKeys ts).filter (fun j => j != RequestItem.tx t false)
        = txKeys ts := by
      rw [List.filter_eq_self]
      intro a ha
      simp only [txKeys, List.mem_map] at ha
      obtain ⟨u, hu, rfl⟩ := ha
      simp only [bne_iff_ne, ne_eq, RequestItem.tx.injEq, not_and]
      intro heq
      exact absurd (heq ▸ hu) h.1
    rw [h3]
    rfl

/-! ### Characterizing the input scan -/

/-- The input scan diverges exactly when some input's source transaction
is found but its `vout` indexes past the end of that source's outputs.
(The scan continues past unresolved inputs, so the accumulators are
irrelevant to divergence.) -/
theorem scanInputs_none_iff (mp : Mempool)
    (cache : List (Txid × Transaction)) :
    ∀ (inputs : List TxIn) (vin : Option Amount) (acc : List Txid),
      scanInputs mp cache inputs vin acc = none ↔
        ∃ input ∈ inputs, ∃ src,
          lookupSource mp cache input.previous_output.txid = some src ∧
          src.output.length ≤ input.previous_output.vout := by
  intro inputs
  induction inputs with
  | nil =>
    intro vin acc
    simp [scanInputs]
  | cons input inputs ih =>
    intro vin acc
    rw [scanInputs]
    cases hsrc : lookupSource mp cache input.previous_output.txid with
    | none =>
      rw [ih]
      constructor
      · rintro ⟨i, hi, src, h1, h2⟩
        exact ⟨i, List.mem_cons_of_mem _ hi, src, h1, h2⟩
      · rintro ⟨i, hi, src, h1, h2⟩
        rcases List.mem_cons.mp hi with rfl | hi
        · rw [hsrc] at h1; cases h1
        · exact ⟨i, hi, src, h1, h2⟩
    | some src =>
      dsimp only
      cases hout : src.output.get? input.previous_output.vout with
      | none =>
        dsimp only
        simp only [eq_self_iff_true, true_iff]
        exact ⟨input, List.mem_cons_self _ _, src, hsrc,
          List.get?_eq_none.mp hout⟩
      | some txout =>
        dsimp only
        rw [ih]
        constructor
        · rintro ⟨i, hi, src2, h1, h2⟩
          exact ⟨i, List.mem_cons_of_mem _ hi, src2, h1, h2⟩
        · rintro ⟨i, hi, src2, h1, h2⟩
          rcases List.mem_cons.mp hi with rfl | hi
          · rw [hsrc] at h1
            cases h1
            obtain ⟨hlt, _⟩ := List.get?_eq_some.mp hout
            exact absurd h2 (Nat.not_le.mpr hlt)
          · exact ⟨i, hi, src2, h1, h2⟩

/-! ### Path lemmas for fee resolution -/

theorem checked_sub_value_out (v : Amount) :
    Amount.checked_sub v value_out = some v := by
  simp [Amount.checked_sub, value_out]

theorem try_add_uncached {ε : Type} (enforcer : Enforcer ε) (mp : Mempool)
    (st : SyncState) (txid : Txid)
    (hc : List.lookup txid st.tx_cache = none) :
    try_add_tx_from_cache enforcer mp st txid = .ok (false, mp, st) := by
  unfold try_add_tx_from_cache
  rw [hc]

theorem try_add_scan_panic {ε : Type} (enforcer : Enforcer ε) (mp : Mempool)
    (st : SyncState) (txid : Txid) (tx : Transaction)
    (hc : List.lookup txid st.tx_cache = some tx)
    (hs : scanInputs mp st.tx_cache tx.input (some 0) [] = none) :
    try_add_tx_from_cache enforcer mp st txid = .panicked := by
  unfold try_add_tx_from_cache
  rw [hc]
  dsimp only
  rw [hs]

theorem try_add_missing_inputs {ε : Type} (enforcer : Enforcer ε)
    (mp : Mempool) (st : SyncState) (txid : Txid) (tx : Transaction)
    (needed : List Txid)
    (hc : List.lookup txid st.tx_cache = some tx)
    (hs : scanInputs mp st.tx_cache tx.input (some 0) [] =
      some (none, needed)) :
    try_add_tx_from_cache enforcer mp st txid =
      .ok (false, mp, pushPriority needed st) := by
  unfold try_add_tx_from_cache
  rw [hc]
  dsimp only
  rw [hs]

theorem try_add_resolved_raw {ε : Type} (enforcer : Enforcer ε)
    (mp : Mempool) (st : SyncState) (txid : Txid) (tx : Transaction)
    (v : Amount) (needed : List Txid)
    (hc : List.lookup txid st.tx_cache = some tx)
    (hs : scanInputs mp st.tx_cache tx.input (some 0) [] =
      some (some v, needed)) :
    try_add_tx_from_cache enforcer mp st txid =
      match Amount.checked_sub v value_out with
      | none => .error .feeOverflow
      | some fee_delta =>
        match enforcer tx with
        | .error e => .error (.cusfEnforcer e)
        | .ok true => .ok (true, mp.insert tx fee_delta, pushPriority needed st)
        | .ok false => .panicked := by
  unfold try_add_tx_from_cache
  rw [hc]
  dsimp only
  rw [hs]

theorem try_add_resolved {ε : Type} (enforcer : Enforcer ε)
    (mp : Mempool) (st : SyncState) (txid : Txid) (tx : Transaction)
    (v : Amount) (needed : List Txid)
    (hc : List.lookup txid st.tx_cache = some tx)
    (hs : scanInputs mp st.tx_cache tx.input (some 0) [] =
      some (some v, needed)) :
    try_add_tx_from_cache enforcer mp st txid =
      match enforcer tx with
      | .error e => .error (.cusfEnforcer e)
      | .ok true => .ok (true, mp.insert tx v, pushPriority needed st)
      | .ok false => .panicked := by
  rw [try_add_resolved_raw enforcer mp st txid tx v needed hc hs,
    checked_sub_value_out]

/-! ### Structure extensionality and pushPriority idempotence -/

theorem syncState_ext (a b : SyncState)
    (h1 : a.request_queue = b.request_queue)
    (h2 : a.seq_message_queue = b.seq_message_queue)
    (h3 : a.tx_cache = b.tx_cache) : a = b := by
  cases a; cases b; simp_all

theorem mempool_ext (a b : Mempool) (h1 : a.chain = b.chain)
    (h2 : a.txs = b.txs) : a = b := by
  cases a; cases b; simp_all

theorem pushPriority_idem (ts : List Txid) (st : SyncState) :
    pushPriority ts (pushPriority ts st) = pushPriority ts st := by
  apply syncState_ext
  · rw [pushPriority_request_queue, pushPriority_request_queue,
      frontInsert_idem]
  · rw [pushPriority_seq_message_queue]
  · rw [pushPriority_tx_cache]

/-! ### Path lemmas for the apply step -/

theorem try_apply_front_none {ε : Type} (enforcer : Enforcer ε)
    (mp : Mempool) (st : SyncState) (hq : st.seq_message_queue = []) :
    try_apply_next_seq_message enforcer mp st = .ok (false, mp, st) := by
  unfold try_apply_next_seq_message
  rw [hq]

theorem try_apply_front_connected {ε : Type} (enforcer : Enforcer ε)
    (mp : Mempool) (st : SyncState) (bh : BlockHash) (s : Nat)
    (rest : List SequenceMessage)
    (hq : st.seq_message_queue = .blockHashConnected bh s :: rest) :
    try_apply_next_seq_message enforcer mp st = .ok (false, mp, st) := by
  unfold try_apply_next_seq_message
  rw [hq]

theorem try_apply_front_disconnected {ε : Type} (enforcer : Enforcer ε)
    (mp : Mempool) (st : SyncState) (bh : BlockHash) (s : Nat)
    (rest : List SequenceMessage)
    (hq : st.seq_message_queue = .blockHashDisconnected bh s :: rest) :
    try_apply_next_seq_message enforcer mp st =
      if mp.chain.tip ≠ bh then .ok (false, mp, st)
      else
        match List.lookup bh mp.chain.blocks with
        | none => .ok (false, mp, st)
        | some block =>
          match block.tx with
          | _ :: _ => .panicked
          | [] =>
            .ok (true,
                 { mp with chain :=
                    { mp.chain with
                      tip := block.previousblockhash.getD BlockHash.all_zeros } },
                 { st with seq_message_queue := rest }) := by
  unfold try_apply_next_seq_message
  rw [hq]

theorem try_apply_front_added {ε : Type} (enforcer : Enforcer ε)
    (mp : Mempool) (st : SyncState) (txid : Txid) (m z : Nat)
    (rest : List SequenceMessage)
    (hq : st.seq_message_queue = .txHashAdded txid m z :: rest) :
    try_apply_next_seq_message enforcer mp st =
      match try_add_tx_from_cache enforcer mp st txid with
      | .panicked => .panicked
      | .error e => .error e
      | .ok (res, mpA, stA) =>
        if res then .ok (true, mpA, { stA with seq_message_queue := rest })
        else .ok (false, mpA, stA) := by
  unfold try_apply_next_seq_message
  rw [hq]

theorem try_apply_front_removed {ε : Type} (enforcer : Enforcer ε)
    (mp : Mempool) (st : SyncState) (txid : Txid) (m z : Nat)
    (rest : List SequenceMessage)
    (hq : st.seq_message_queue = .txHashRemoved txid m z :: rest) :
    try_apply_next_seq_message enforcer mp st =
      if (List.lookup txid mp.txs).isSome then
        .ok (true, { mp with txs := mapRemove txid mp.txs },
             { st with seq_message_queue := rest })
      else
        .ok (false, { mp with txs := mapRemove txid mp.txs }, st) := by
  unfold try_apply_next_seq_message
  rw [hq]
  rfl

/-- Fee resolution never touches `seq_message_queue` or `tx_cache`: a
successful return carries a state differing at most in `request_queue`. -/
theorem try_add_ok_state {ε : Type} (enforcer : Enforcer ε) (mp : Mempool)
    (st : SyncState) (txid : Txid) (b : Bool) (mp' : Mempool)
    (st' : SyncState)
    (h : try_add_tx_from_cache enforcer mp st txid = .ok (b, mp', st')) :
    st'.seq_message_queue = st.seq_message_queue ∧
      st'.tx_cache = st.tx_cache := by
  cases hc : List.lookup txid st.tx_cache with
  | none =>
    rw [try_add_uncached enforcer mp st txid hc] at h
    simp only [Outcome.ok.injEq, Prod.mk.injEq] at h
    obtain ⟨-, -, hst⟩ := h
    rw [← hst]
    exact ⟨rfl, rfl⟩
  | some tx =>
    cases hs : scanInputs mp st.tx_cache tx.input (some 0) [] with
    | none =>
      rw [try_add_scan_panic enforcer mp st txid tx hc hs] at h
      cases h
    | some p =>
      obtain ⟨vin, needed⟩ := p
      cases vin with
      | none =>
        rw [try_add_missing_inputs enforcer mp st txid tx needed hc hs] at h
        simp only [Outcome.ok.injEq, Prod.mk.injEq] at h
        obtain ⟨-, -, hst⟩ := h
        rw [← hst]
        exact ⟨pushPriority_seq_message_queue _ _, pushPriority_tx_cache _ _⟩
      | some v =>
        rw [try_add_resolved enforcer mp st txid tx v needed hc hs] at h
        cases henf : enforcer tx with
        | error e => rw [henf] at h; cases h
        | ok bb =>
          rw [henf] at h
          cases bb with
          | false => cases h
          | true =>
            simp only [Outcome.ok.injEq, Prod.mk.injEq] at h
            obtain ⟨-, -, hst⟩ := h
            rw [← hst]
            exact ⟨pushPriority_seq_message_queue _ _,
              pushPriority_tx_cache _ _⟩

/-- C6: Idempotence of the apply loop: if `try_apply_next_seq_message`
reports no progress (`Ok(false)`) on a state, invoking it again on the
resulting state performs no further mutation of the mempool or the
`SyncState`: it returns `Ok(false)` with exactly the same mempool and
sync state. -/
theorem apply_no_progress_idempotent {ε : Type} (enforcer : Enforcer ε)
    (mp : Mempool) (st : SyncState) (mp' : Mempool) (st' : SyncState)
    (h : try_apply_next_seq_message enforcer mp st = .ok (false, mp', st')) :
    try_apply_next_seq_message enforcer mp' st' = .ok (false, mp', st') := by
  cases hq : st.seq_message_queue with
  | nil =>
    rw [try_apply_front_none enforcer mp st hq] at h
    simp only [Outcome.ok.injEq, Prod.mk.injEq, true_and] at h
    obtain ⟨hmp, hst⟩ := h
    subst hmp; subst hst
    exact try_apply_front_none enforcer mp st hq
  | cons msg rest =>
    cases msg with
    | blockHashConnected bh s =>
      rw [try_apply_front_connected enforcer mp st bh s rest hq] at h
      simp only [Outcome.ok.injEq, Prod.mk.injEq, true_and] at h
      obtain ⟨hmp, hst⟩ := h
      subst hmp; subst hst
      exact try_apply_front_connected enforcer mp st bh s rest hq
    | blockHashDisconnected bh s =>
      rw [try_apply_front_disconnected enforcer mp st bh s rest hq] at h
      by_cases htip : mp.chain.tip = bh
      · rw [if_neg (not_not_intro htip)] at h
        cases hbl : List.lookup bh mp.chain.blocks with
        | none =>
          rw [hbl] at h
          simp only [Outcome.ok.injEq, Prod.mk.injEq, true_and] at h
          obtain ⟨hmp, hst⟩ := h
          subst hmp; subst hst
          rw [try_apply_front_disconnected enforcer mp st bh s rest hq,
            if_neg (not_not_intro htip), hbl]
        | some block =>
          rw [hbl] at h
          dsimp only at h
          cases hbtx : block.tx with
          | nil => rw [hbtx] at h; simp at h
          | cons t tl => rw [hbtx] at h; cases h
      · rw [if_pos htip] at h
        simp only [Outcome.ok.injEq, Prod.mk.injEq, true_and] at h
        obtain ⟨hmp, hst⟩ := h
        subst hmp; subst hst
        rw [try_apply_front_disconnected enforcer mp st bh s rest hq,
          if_pos htip]
    | txHashAdded txid m z =>
      rw [try_apply_front_added enforcer mp st txid m z rest hq] at h
      cases hc : List.lookup txid st.tx_cache with
      | none =>
        rw [try_add_uncached enforcer mp st txid hc] at h
        simp only [if_false, Bool.false_eq_true, Outcome.ok.injEq,
          Prod.mk.injEq, true_and] at h
        obtain ⟨hmp, hst⟩ := h
        subst hmp; subst hst
        rw [try_apply_front_added enforcer mp st txid m z rest hq,
          try_add_uncached enforcer mp st txid hc]
        simp
      | some tx =>
        cases hs : scanInputs mp st.tx_cache tx.input (some 0) [] with
        | none =>
          rw [try_add_scan_panic enforcer mp st txid tx hc hs] at h
          cases h
        | some p =>
          obtain ⟨vin, needed⟩ := p
          cases vin with
          | none =>
            rw [try_add_missing_inputs enforcer mp st txid tx needed hc hs]
              at h
            simp only [if_false, Bool.false_eq_true, Outcome.ok.injEq,
              Prod.mk.injEq, true_and] at h
            obtain ⟨hmp, hst⟩ := h
            subst hmp; subst hst
            have hq2 : (pushPriority needed st).seq_message_queue =
                SequenceMessage.txHashAdded txid m z :: rest := by
              rw [pushPriority_seq_message_queue]; exact hq
            have hc2 : List.lookup txid (pushPriority needed st).tx_cache =
                some tx := by
              rw [pushPriority_tx_cache]; exact hc
            have hs2 : scanInputs mp (pushPriority needed st).tx_cache
                tx.input (some 0) [] = some (none, needed) := by
              rw [pushPriority_tx_cache]; exact hs
            rw [try_apply_front_added enforcer mp (pushPriority needed st)
                txid m z rest hq2,
              try_add_missing_inputs enforcer mp (pushPriority needed st)
                txid tx needed hc2 hs2]
            simp [pushPriority_idem]
          | some v =>
            rw [try_add_resolved enforcer mp st txid tx v needed hc hs] at h
            cases henf : enforcer tx with
            | error e => rw [henf] at h; cases h
            | ok bb =>
              rw [henf] at h
              cases bb with
              | false => cases h
              | true => simp at h
    | txHashRemoved txid m z =>
      rw [try_apply_front_removed enforcer mp st txid m z rest hq] at h
      cases hl : List.lookup txid mp.txs with
      | some v => rw [hl] at h; simp at h
      | none =>
        rw [hl] at h
        simp only [Option.isSome_none, Bool.false_eq_true, if_false,
          Outcome.ok.injEq, Prod.mk.injEq, true_and] at h
        obtain ⟨hmp, hst⟩ := h
        subst hmp; subst hst
        rw [try_apply_front_removed enforcer
          { mp with txs := mapRemove txid mp.txs } st txid m z rest hq]
        have hl2 : List.lookup txid
            ({ mp with txs := mapRemove txid mp.txs } : Mempool).txs = none :=
          lookup_mapRemove_self txid mp.txs
        rw [hl2]
        simp only [Option.isSome_none, Bool.false_eq_true, if_false,
          Outcome.ok.injEq, Prod.mk.injEq, true_and]
        refine ⟨?_, trivial⟩
        refine mempool_ext _ _ rfl ?_
        exact lookup_none_mapRemove txid _ hl2

/-! ### Concrete states for witnesses and counterexamples -/

/-- Witness for C6 at a concrete input: a no-progress step that did
mutate the request queue (`wSt0` to `wSt1`), after which the step is a
strict fixpoint. -/
theorem apply_no_progress_idempotent_witness :
    try_apply_next_seq_message wEnf wMp wSt0 = .ok (false, wMp, wSt1) ∧
      try_apply_next_seq_message wEnf wMp wSt1 = .ok (false, wMp, wSt1) :=
  ⟨by decide, apply_no_progress_idempotent wEnf wMp wSt0 wMp wSt1 (by decide)⟩

/-- C10: if the txid of a tx-added event is absent from `tx_cache`,
`try_add_tx_from_cache` reports no progress and leaves the mempool and
every component of the sync state unchanged — the returned mempool and
state are exactly the inputs — and this holds for every enforcer, so the
accept decision is never consulted; via `try_apply_next_seq_message` the
front event also stays queued. -/
theorem try_add_uncached_frame {ε : Type} (enforcer : Enforcer ε)
    (mp : Mempool) (st : SyncState) (txid : Txid)
    (h : List.lookup txid st.tx_cache = none) :
    try_add_tx_from_cache enforcer mp st txid = .ok (false, mp, st) ∧
      (∀ m z rest,
        st.seq_message_queue = SequenceMessage.txHashAdded txid m z :: rest →
        try_apply_next_seq_message enforcer mp st = .ok (false, mp, st)) := by
  refine ⟨try_add_uncached enforcer mp st txid h, ?_⟩
  intro m z rest hq
  rw [try_apply_front_added enforcer mp st txid m z rest hq,
    try_add_uncached enforcer mp st txid h]
  simp

/-- Witness for C10 at a concrete input. -/
theorem try_add_uncached_frame_witness :
    List.lookup 9 wSt2.tx_cache = none ∧
      try_add_tx_from_cache wEnf wMp wSt2 9 = .ok (false, wMp, wSt2) ∧
      try_apply_next_seq_message wEnf wMp wSt2 = .ok (false, wMp, wSt2) :=
  ⟨by decide, (try_add_uncached_frame wEnf wMp wSt2 9 (by decide)).1,
    (try_add_uncached_frame wEnf wMp wSt2 9 (by decide)).2 0 0 [] rfl⟩

/-- C2: a tx-removed event at the queue front applies via unconditional
removal: if the txid is absent from the mempool the step is an `Ok`
no-op (mempool and state unchanged, event not popped); if present, the
tx is removed, progress is reported, and the event is popped — so the
event is popped exactly on a successful removal. -/
theorem tx_removed_stale_is_noop {ε : Type} (enforcer : Enforcer ε)
    (mp : Mempool) (st : SyncState) (txid : Txid) (m z : Nat)
    (rest : List SequenceMessage)
    (hq : st.seq_message_queue = .txHashRemoved txid m z :: rest) :
    (List.lookup txid mp.txs = none →
      try_apply_next_seq_message enforcer mp st = .ok (false, mp, st)) ∧
    (∀ v, List.lookup txid mp.txs = some v →
      try_apply_next_seq_message enforcer mp st =
        .ok (true, { mp with txs := mapRemove txid mp.txs },
             { st with seq_message_queue := rest })) := by
  constructor
  · intro hl
    rw [try_apply_front_removed enforcer mp st txid m z rest hq, hl,
      lookup_none_mapRemove txid mp.txs hl]
    simp
  · intro v hl
    rw [try_apply_front_removed enforcer mp st txid m z rest hq, hl]
    simp

/-- Witness for C2 at a concrete input: a stale removal is an `Ok`
no-op. -/
theorem tx_removed_stale_is_noop_witness :
    List.lookup 3 wMpR.txs = none ∧
      try_apply_next_seq_message wEnf wMpR wStR = .ok (false, wMpR, wStR) :=
  ⟨by decide,
    (tx_removed_stale_is_noop wEnf wMpR wStR 3 0 0 [] rfl).1 (by decide)⟩

/-- C3: with the tx cached and every input source resolved (scan yields
`some v` and no missing txids), the fee passed to `mempool.insert` is
exactly the result of the checked subtraction `value_in − value_out`
(where `value_out` is the source's local, initialised to zero and never
updated): a `none` (negative) result maps to the fatal `FeeOverflow`
error instead of an insertion, and whenever `value_out ≤ value_in` the
`FeeOverflow` error is never produced. -/
theorem fee_overflow_checked_sub {ε : Type} (enforcer : Enforcer ε)
    (mp : Mempool) (st : SyncState) (txid : Txid) (tx : Transaction)
    (v : Amount)
    (hc : List.lookup txid st.tx_cache = some tx)
    (hs : scanInputs mp st.tx_cache tx.input (some 0) [] =
      some (some v, [])) :
    (∀ fd, Amount.checked_sub v value_out = some fd →
      enforcer tx = .ok true →
      try_add_tx_from_cache enforcer mp st txid =
        .ok (true, mp.insert tx fd, st)) ∧
    (Amount.checked_sub v value_out = none →
      try_add_tx_from_cache enforcer mp st txid = .error .feeOverflow) ∧
    (value_out ≤ v →
      try_add_tx_from_cache enforcer mp st txid ≠
        .error SyncTaskError.feeOverflow) := by
  refine ⟨?_, ?_, ?_⟩
  · intro fd hfd henf
    rw [try_add_resolved_raw enforcer mp st txid tx v [] hc hs, hfd, henf]
    rfl
  · intro hnone
    rw [try_add_resolved_raw enforcer mp st txid tx v [] hc hs, hnone]
  · intro _ heq
    rw [try_add_resolved_raw enforcer mp st txid tx v [] hc hs,
      checked_sub_value_out] at heq
    cases henf : enforcer tx with
    | error e => rw [henf] at heq; simp at heq
    | ok bb =>
      rw [henf] at heq
      cases bb with
      | false => cases heq
      | true => cases heq

/-- Witness for C3 at a concrete input: the scan resolves both inputs to
8000 sats, the checked subtraction yields `some 8000`, and that value is
inserted. -/
theorem fee_overflow_checked_sub_witness :
    Amount.checked_sub 8000 value_out = some 8000 ∧
      try_add_tx_from_cache wEnf wMp cSt 1 =
        .ok (true, wMp.insert cTxT 8000, cSt) :=
  ⟨by decide,
    (fee_overflow_checked_sub wEnf wMp cSt 1 cTxT 8000 (by decide)
      (by decide)).1 8000 (by decide) rfl⟩

/-- C9: for every input whose source transaction is found, the source's
output list is indexed by `vout` with no bounds check: the scan (hence
`try_add_tx_from_cache`) panics — rather than returning an error —
exactly when some input's resolved source has `output.length ≤ vout`. -/
theorem fee_resolution_vout_unchecked {ε : Type} (enforcer : Enforcer ε)
    (mp : Mempool) (st : SyncState) (txid : Txid) (tx : Transaction)
    (hc : List.lookup txid st.tx_cache = some tx) :
    (scanInputs mp st.tx_cache tx.input (some 0) [] = none →
      try_add_tx_from_cache enforcer mp st txid = .panicked) ∧
    (scanInputs mp st.tx_cache tx.input (some 0) [] = none ↔
      ∃ input ∈ tx.input, ∃ src,
        lookupSource mp st.tx_cache input.previous_output.txid = some src ∧
        src.output.length ≤ input.previous_output.vout) :=
  ⟨fun hs => try_add_scan_panic enforcer mp st txid tx hc hs,
    scanInputs_none_iff mp st.tx_cache tx.input (some 0) []⟩

/-- Witness for C9 at a concrete input: resolving `oTx`'s input panics on
the out-of-bounds `vout`. -/
theorem fee_resolution_vout_unchecked_witness :
    try_add_tx_from_cache wEnf wMp oSt 3 = .panicked :=
  (fee_resolution_vout_unchecked wEnf wMp oSt 3 oTx (by decide)).1 (by decide)

/-- C1 (divergence, exhibited at the spec's own example): with inputs
worth 5000 and 3000 sats fully resolved and outputs summing to 7000
sats, the fee-delta passed to `mempool.insert` is 8000 — the total input
value — not 1000: the source never accumulates output values
(`value_out` stays zero, see `value_out`), so the inserted fee-delta is
not `total input − total output`. -/
theorem try_add_fee_delta_is_total_input_value :
    try_add_tx_from_cache wEnf wMp cSt 1 =
        .ok (true, wMp.insert cTxT 8000, cSt) ∧
      List.lookup 1 (wMp.insert cTxT 8000).txs = some (cTxT, 8000) ∧
      cTxT.output = [⟨7000⟩] ∧
      (5000 + 3000 : Nat) - 7000 = 1000 ∧ (8000 : Nat) ≠ 1000 := by
  refine ⟨by decide, by decide, rfl, rfl, by decide⟩

/-! ### Sequence-message handler effects -/

theorem handle_seq_message_seq (mp : Mempool) (st : SyncState)
    (msg : SequenceMessage) :
    (handle_seq_message mp st msg).seq_message_queue =
      st.seq_message_queue ++ [msg] := by
  cases msg with
  | blockHashConnected bh s => rfl
  | blockHashDisconnected bh s =>
    unfold handle_seq_message
    dsimp only
    split <;> rfl
  | txHashAdded t m z => rfl
  | txHashRemoved t m z => rfl

theorem handle_seq_message_cache (mp : Mempool) (st : SyncState)
    (msg : SequenceMessage) :
    (handle_seq_message mp st msg).tx_cache = st.tx_cache := by
  cases msg with
  | blockHashConnected bh s => rfl
  | blockHashDisconnected bh s =>
    unfold handle_seq_message
    dsimp only
    split <;> rfl
  | txHashAdded t m z => rfl
  | txHashRemoved t m z => rfl

/-- C5: `handle_seq_message` mutates only the queues, never the mempool
(its type returns only the new `SyncState`; the mempool argument is
read-only): block-connected appends a `Block` request; block-disconnected
appends a `Block` request only when the hash is not already cached;
tx-added appends a `Tx(txid, true)` request; tx-removed removes any
pending `Tx(txid, true)` request; and every message is appended at the
back of `seq_message_queue`. -/
theorem handle_seq_message_queue_effects (mp : Mempool) (st : SyncState) :
    (∀ msg, (handle_seq_message mp st msg).seq_message_queue =
      st.seq_message_queue ++ [msg]) ∧
    (∀ msg, (handle_seq_message mp st msg).tx_cache = st.tx_cache) ∧
    (∀ bh s, (handle_seq_message mp st (.blockHashConnected bh s)).request_queue
      = RequestQueue.push_back st.request_queue (.block bh)) ∧
    (∀ bh s,
      (handle_seq_message mp st (.blockHashDisconnected bh s)).request_queue
      = if (List.lookup bh mp.chain.blocks).isSome then st.request_queue
        else RequestQueue.push_back st.request_queue (.block bh)) ∧
    (∀ t m z, (handle_seq_message mp st (.txHashAdded t m z)).request_queue
      = RequestQueue.push_back st.request_queue (.tx t true)) ∧
    (∀ t m z, (handle_seq_message mp st (.txHashRemoved t m z)).request_queue
      = RequestQueue.remove st.request_queue (.tx t true)) := by
  refine ⟨handle_seq_message_seq mp st, handle_seq_message_cache mp st,
    fun bh s => rfl, ?_, fun t m z => rfl, fun t m z => rfl⟩
  intro bh s
  by_cases hbl : (List.lookup bh mp.chain.blocks).isSome
  · simp [handle_seq_message, hbl]
  · simp [handle_seq_message, hbl]

/-! ### FIFO discipline of the sequence-message queue -/

theorem try_apply_ok_seq {ε : Type} (enforcer : Enforcer ε) (mp : Mempool)
    (st : SyncState) (b : Bool) (mp' : Mempool) (st' : SyncState)
    (h : try_apply_next_seq_message enforcer mp st = .ok (b, mp', st')) :
    st'.seq_message_queue =
      if b then st.seq_message_queue.tail else st.seq_message_queue := by
  cases hq : st.seq_message_queue with
  | nil =>
    rw [try_apply_front_none enforcer mp st hq] at h
    simp only [Outcome.ok.injEq, Prod.mk.injEq] at h
    obtain ⟨hb, -, hst⟩ := h
    subst hb
    rw [← hst]
    simpa using hq
  | cons msg rest =>
    cases msg with
    | blockHashConnected bh s =>
      rw [try_apply_front_connected enforcer mp st bh s rest hq] at h
      simp only [Outcome.ok.injEq, Prod.mk.injEq] at h
      obtain ⟨hb, -, hst⟩ := h
      subst hb
      rw [← hst]
      simpa using hq
    | blockHashDisconnected bh s =>
      rw [try_apply_front_disconnected enforcer mp st bh s rest hq] at h
      by_cases htip : mp.chain.tip = bh
      · rw [if_neg (not_not_intro htip)] at h
        cases hbl : List.lookup bh mp.chain.blocks with
        | none =>
          rw [hbl] at h
          simp only [Outcome.ok.injEq, Prod.mk.injEq] at h
          obtain ⟨hb, -, hst⟩ := h
          subst hb
          rw [← hst]
          simpa using hq
        | some block =>
          rw [hbl] at h
          dsimp only at h
          cases hbtx : block.tx with
          | nil =>
            rw [hbtx] at h
            simp only [Outcome.ok.injEq, Prod.mk.injEq] at h
            obtain ⟨hb, -, hst⟩ := h
            subst hb
            rw [← hst]
            simp
          | cons t tl => rw [hbtx] at h; cases h
      · rw [if_pos htip] at h
        simp only [Outcome.ok.injEq, Prod.mk.injEq] at h
        obtain ⟨hb, -, hst⟩ := h
        subst hb
        rw [← hst]
        simpa using hq
    | txHashAdded txid m z =>
      rw [try_apply_front_added enforcer mp st txid m z rest hq] at h
      cases ht : try_add_tx_from_cache enforcer mp st txid with
      | panicked => rw [ht] at h; cases h
      | error e => rw [ht] at h; cases h
      | ok val =>
        obtain ⟨res, mpA, stA⟩ := val
        rw [ht] at h
        dsimp only at h
        cases res with
        | true =>
          rw [if_pos rfl] at h
          simp only [Outcome.ok.injEq, Prod.mk.injEq] at h
          obtain ⟨hb, -, hst⟩ := h
          subst hb
          rw [← hst]
          simp
        | false =>
          rw [if_neg (by simp)] at h
          simp only [Outcome.ok.injEq, Prod.mk.injEq] at h
          obtain ⟨hb, -, hst⟩ := h
          subst hb
          rw [← hst]
          simp only [Bool.false_eq_true, if_false]
          rw [(try_add_ok_state enforcer mp st txid false mpA stA ht).1]
          exact hq
    | txHashRemoved txid m z =>
      rw [try_apply_front_removed enforcer mp st txid m z rest hq] at h
      cases hl : List.lookup txid mp.txs with
      | some v =>
        rw [hl] at h
        simp only [Option.isSome_some, if_true, Outcome.ok.injEq,
          Prod.mk.injEq] at h
        obtain ⟨hb, -, hst⟩ := h
        subst hb
        rw [← hst]
        simp
      | none =>
        rw [hl] at h
        simp only [Option.isSome_none, Bool.false_eq_true, if_false,
          Outcome.ok.injEq, Prod.mk.injEq] at h
        obtain ⟨hb, -, hst⟩ := h
        subst hb
        rw [← hst]
        simpa using hq

theorem handle_resp_block_seq (mp : Mempool) (st : SyncState) (block : Block)
    (mp' : Mempool) (st' : SyncState)
    (h : handle_resp_block mp st block = some (mp', st')) :
    st'.seq_message_queue = st.seq_message_queue ∨
      st'.seq_message_queue = st.seq_message_queue.tail := by
  unfold handle_resp_block at h
  cases hq : st.seq_message_queue with
  | nil =>
    rw [hq] at h
    simp only [Option.bind_eq_bind, Option.some_bind, Option.some.injEq,
      Prod.mk.injEq] at h
    obtain ⟨-, hst⟩ := h
    rw [← hst]
    exact Or.inl hq
  | cons msg rest =>
    cases msg with
    | blockHashConnected bh s =>
      rw [hq] at h
      dsimp only at h
      by_cases hbh : bh = block.hash
      · rw [if_pos hbh] at h
        simp only [Option.bind_eq_bind, Option.some_bind, Option.some.injEq,
          Prod.mk.injEq] at h
        obtain ⟨-, hst⟩ := h
        rw [← hst]
        exact Or.inr rfl
      · rw [if_neg hbh] at h
        simp only [Option.bind_eq_bind, Option.some_bind, Option.some.injEq,
          Prod.mk.injEq] at h
        obtain ⟨-, hst⟩ := h
        rw [← hst]
        exact Or.inl hq
    | blockHashDisconnected bh s =>
      rw [hq] at h
      dsimp only at h
      by_cases hcond : bh = block.hash ∧ mp.chain.tip = block.hash
      · rw [if_pos hcond] at h
        cases hbtx : block.tx with
        | nil =>
          rw [hbtx] at h
          simp only [Option.bind_eq_bind, Option.some_bind,
            Option.some.injEq, Prod.mk.injEq] at h
          obtain ⟨-, hst⟩ := h
          rw [← hst]
          exact Or.inr rfl
        | cons t tl => rw [hbtx] at h; cases h
      · rw [if_neg hcond] at h
        simp only [Option.bind_eq_bind, Option.some_bind, Option.some.injEq,
          Prod.mk.injEq] at h
        obtain ⟨-, hst⟩ := h
        rw [← hst]
        exact Or.inl hq
    | txHashAdded t m z =>
      rw [hq] at h
      simp only [Option.bind_eq_bind, Option.some_bind, Option.some.injEq,
        Prod.mk.injEq] at h
      obtain ⟨-, hst⟩ := h
      rw [← hst]
      exact Or.inl hq
    | txHashRemoved t m z =>
      rw [hq] at h
      simp only [Option.bind_eq_bind, Option.some_bind, Option.some.injEq,
        Prod.mk.injEq] at h
      obtain ⟨-, hst⟩ := h
      rw [← hst]
      exact Or.inl hq

/-- C8: FIFO discipline of `seq_message_queue`: the sequence handler only
appends the received message at the back; the tx response handler never
touches the queue; an apply step either leaves the queue unchanged
(no progress) or pops exactly the front; and the block response handler
either leaves the queue unchanged or pops exactly the front — no
operation removes from the middle or reorders. -/
theorem seq_queue_fifo_discipline :
    (∀ (mp : Mempool) (st : SyncState) (msg : SequenceMessage),
      (handle_seq_message mp st msg).seq_message_queue =
        st.seq_message_queue ++ [msg]) ∧
    (∀ (st : SyncState) (tx : Transaction),
      (handle_resp_tx st tx).seq_message_queue = st.seq_message_queue) ∧
    (∀ (ε : Type) (enforcer : Enforcer ε) (mp : Mempool) (st : SyncState)
        (b : Bool) (mp' : Mempool) (st' : SyncState),
      try_apply_next_seq_message enforcer mp st = .ok (b, mp', st') →
      st'.seq_message_queue =
        if b then st.seq_message_queue.tail else st.seq_message_queue) ∧
    (∀ (mp : Mempool) (st : SyncState) (block : Block) (mp' : Mempool)
        (st' : SyncState),
      handle_resp_block mp st block = some (mp', st') →
      st'.seq_message_queue = st.seq_message_queue ∨
        st'.seq_message_queue = st.seq_message_queue.tail) :=
  ⟨handle_seq_message_seq, fun _ _ => rfl,
    fun _ enforcer mp st b mp' st' h =>
      try_apply_ok_seq enforcer mp st b mp' st' h,
    handle_resp_block_seq⟩

/-- Witness for C8 at concrete inputs: an apply step that pops the front
(successful removal), and a block response that pops its matching
connect event. -/
theorem seq_queue_fifo_discipline_witness :
    (handle_seq_message wMp wStR (.txHashAdded 4 0 0)).seq_message_queue =
        wStR.seq_message_queue ++ [.txHashAdded 4 0 0] ∧
      (⟨[], [], []⟩ : SyncState).seq_message_queue =
        (if true then wStR2.seq_message_queue.tail
         else wStR2.seq_message_queue) ∧
      ((⟨[], [], []⟩ : SyncState).seq_message_queue =
          wStC8.seq_message_queue ∨
        (⟨[], [], []⟩ : SyncState).seq_message_queue =
          wStC8.seq_message_queue.tail) := by
  refine ⟨seq_queue_fifo_discipline.1 wMp wStR (.txHashAdded 4 0 0), ?_, ?_⟩
  · exact seq_queue_fifo_discipline.2.2.1 Unit wEnf wMpR wStR2 true
      ⟨⟨0, []⟩, []⟩ ⟨[], [], []⟩ (by decide)
  · exact seq_queue_fifo_discipline.2.2.2 wMp wStC8 wBlkC8
      ⟨⟨7, [(7, wBlkC8)]⟩, []⟩ ⟨[], [], []⟩ (by decide)

/-! ### Priority scheduling of unresolved input fetches -/

theorem foldl_batchStep_request_queue :
    ∀ (txs : List (Transaction × Bool)) (acc : List Txid × SyncState),
      (txs.foldl batchStep acc).2.request_queue = acc.2.request_queue := by
  intro txs
  induction txs with
  | nil => intro acc; rfl
  | cons p txs ih =>
    intro acc
    rw [List.foldl_cons, ih]
    rfl

theorem handle_resp_batch_eq (st : SyncState) (txs : List (Transaction × Bool)) :
    handle_resp_batch st txs =
      pushPriority (txs.foldl batchStep ([], st)).1
        (txs.foldl batchStep ([], st)).2 := by
  unfold handle_resp_batch
  rcases hf : txs.foldl batchStep ([], st) with ⟨needed, st2⟩
  rfl

/-- C7: when a fetched transaction is flagged as wanted in the mempool,
the input txids not already in `tx_cache` (collected in input order,
de-duplicated keeping the `LinkedHashSet` iteration order) end up, as
`Tx(txid, false)` requests, exactly at the front of `request_queue` — in
collection order, strictly ahead of every previously queued request —
while a tx not wanted in the mempool leaves the queue unchanged; for a
batch response the collection spans the whole batch (against the cache
as it grows) and the front-insertion happens once, after the batch. -/
theorem resp_tx_priority_front_insert (st : SyncState) (tx : Transaction)
    (txs : List (Transaction × Bool)) :
    ((handle_resp_single_tx st tx true).request_queue =
      txKeys (collectNeeded st.tx_cache tx []) ++
        st.request_queue.filter
          (fun j => !((txKeys (collectNeeded st.tx_cache tx [])).contains j))) ∧
    ((handle_resp_single_tx st tx false).request_queue = st.request_queue) ∧
    ((handle_resp_batch st txs).request_queue =
      txKeys (batchNeeded st txs) ++
        st.request_queue.filter
          (fun j => !((txKeys (batchNeeded st txs)).contains j))) := by
  refine ⟨?_, rfl, ?_⟩
  · have h1 : (handle_resp_single_tx st tx true).request_queue =
        frontInsert (collectNeeded st.tx_cache tx []) st.request_queue := by
      unfold handle_resp_single_tx
      simp only [if_true]
      rw [pushPriority_request_queue]
      rfl
    rw [h1, frontInsert_closed,
      dedupFirstKeys_of_nodup (collectNeeded_nodup st.tx_cache tx []
        List.nodup_nil)]
  · rw [handle_resp_batch_eq, pushPriority_request_queue,
      foldl_batchStep_request_queue]
    show frontInsert (batchNeeded st txs) st.request_queue = _
    rw [frontInsert_closed,
      dedupFirstKeys_of_nodup (batchNeeded_nodup st txs)]

/-! ### The matching-connect removal loop -/

theorem blockTxFold_txs_preserve_none (t : Txid) :
    ∀ (ts : List Txid) (acc : Mempool × SyncState),
      List.lookup t acc.1.txs = none →
      List.lookup t (ts.foldl blockTxStep acc).1.txs = none := by
  intro ts
  induction ts with
  | nil => intro acc h; exact h
  | cons u ts ih =>
    intro acc h
    rw [List.foldl_cons]
    refine ih _ ?_
    show List.lookup t (mapRemove u acc.1.txs) = none
    exact lookup_mapRemove_none t u acc.1.txs h

theorem blockTxFold_txs_none (t : Txid) :
    ∀ (ts : List Txid) (acc : Mempool × SyncState), t ∈ ts →
      List.lookup t (ts.foldl blockTxStep acc).1.txs = none := by
  intro ts
  induction ts with
  | nil => intro acc h; cases h
  | cons u ts ih =>
    intro acc h
    rw [List.foldl_cons]
    rcases List.mem_cons.mp h with rfl | hmem
    · refine blockTxFold_txs_preserve_none t ts _ ?_
      show List.lookup t (mapRemove t acc.1.txs) = none
      exact lookup_mapRemove_self t acc.1.txs
    · exact ih _ hmem

theorem blockTxFold_rq_preserve_notMem (i : RequestItem) :
    ∀ (ts : List Txid) (acc : Mempool × SyncState),
      i ∉ acc.2.request_queue →
      i ∉ (ts.foldl blockTxStep acc).2.request_queue := by
  intro ts
  induction ts with
  | nil => intro acc h; exact h
  | cons u ts ih =>
    intro acc h
    rw [List.foldl_cons]
    refine ih _ ?_
    show i ∉ RequestQueue.remove acc.2.request_queue (.tx u true)
    exact notMem_rqRemove_mono _ _ _ h

theorem blockTxFold_rq_notMem (t : Txid) :
    ∀ (ts : List Txid) (acc : Mempool × SyncState), t ∈ ts →
      RequestItem.tx t true ∉ (ts.foldl blockTxStep acc).2.request_queue := by
  intro ts
  induction ts with
  | nil => intro acc h; cases h
  | cons u ts ih =>
    intro acc h
    rw [List.foldl_cons]
    rcases List.mem_cons.mp h with rfl | hmem
    · refine blockTxFold_rq_preserve_notMem _ ts _ ?_
      show RequestItem.tx t true ∉
        RequestQueue.remove acc.2.request_queue (.tx t true)
      exact notMem_rqRemove_self _ _
    · exact ih _ hmem

theorem blockTxFold_chain :
    ∀ (ts : List Txid) (acc : Mempool × SyncState),
      (ts.foldl blockTxStep acc).1.chain = acc.1.chain := by
  intro ts
  induction ts with
  | nil => intro acc; rfl
  | cons u ts ih => intro acc; rw [List.foldl_cons, ih]; rfl

theorem blockTxFold_cache :
    ∀ (ts : List Txid) (acc : Mempool × SyncState),
      (ts.foldl blockTxStep acc).2.tx_cache = acc.2.tx_cache := by
  intro ts
  induction ts with
  | nil => intro acc; rfl
  | cons u ts ih => intro acc; rw [List.foldl_cons, ih]; rfl

/-- C4 (amended): when the front of `seq_message_queue` is a connect
event matching the fetched block, `handle_resp_block` removes every txid
of the block from the mempool and from `request_queue`, sets the chain
tip to the block's hash, pops the event, and caches the block; whenever
the function returns at all (matching connect, matching disconnect of a
block with no transactions, or no match) the fetched block is cached in
`chain.blocks`; and it fails to return (the unimplemented re-admission
`todo!()` panics) exactly when the front is a matching disconnect event,
the tip equals the block's hash, and the block has at least one
transaction. -/
theorem handle_resp_block_cases (mp : Mempool) (st : SyncState)
    (block : Block) :
    (∀ s rest mp' st',
      st.seq_message_queue =
        SequenceMessage.blockHashConnected block.hash s :: rest →
      handle_resp_block mp st block = some (mp', st') →
      (∀ txid ∈ block.tx, List.lookup txid mp'.txs = none) ∧
      mp'.chain.tip = block.hash ∧
      (∀ txid ∈ block.tx, RequestItem.tx txid true ∉ st'.request_queue) ∧
      st'.seq_message_queue = rest ∧
      st'.tx_cache = st.tx_cache ∧
      List.lookup block.hash mp'.chain.blocks = some block) ∧
    (∀ s rest,
      st.seq_message_queue =
        SequenceMessage.blockHashConnected block.hash s :: rest →
      (handle_resp_block mp st block).isSome) ∧
    (∀ mp' st', handle_resp_block mp st block = some (mp', st') →
      List.lookup block.hash mp'.chain.blocks = some block) ∧
    (handle_resp_block mp st block = none ↔
      ∃ s rest, st.seq_message_queue =
          SequenceMessage.blockHashDisconnected block.hash s :: rest ∧
        mp.chain.tip = block.hash ∧ block.tx ≠ []) := by
  refine ⟨?_, ?_, ?_, ?_⟩
  · intro s rest mp' st' hq h
    unfold handle_resp_block at h
    rw [hq] at h
    dsimp only at h
    rw [if_pos rfl] at h
    rcases hF : block.tx.foldl blockTxStep (mp, st) with ⟨mpF, stF⟩
    rw [hF] at h
    simp only [Option.bind_eq_bind, Option.some_bind, Option.some.injEq,
      Prod.mk.injEq] at h
    obtain ⟨hmp, hst⟩ := h
    rw [← hmp, ← hst]
    refine ⟨?_, rfl, ?_, rfl, ?_, ?_⟩
    · intro txid htx
      show List.lookup txid mpF.txs = none
      have := blockTxFold_txs_none txid block.tx (mp, st) htx
      rw [hF] at this
      exact this
    · intro txid htx
      show RequestItem.tx txid true ∉ stF.request_queue
      have := blockTxFold_rq_notMem txid block.tx (mp, st) htx
      rw [hF] at this
      exact this
    · show stF.tx_cache = st.tx_cache
      have := blockTxFold_cache block.tx (mp, st)
      rw [hF] at this
      exact this
    · exact lookup_mapInsert_self block.hash block _
  · intro s rest hq
    unfold handle_resp_block
    rw [hq]
    dsimp only
    rw [if_pos rfl]
    rcases hF : block.tx.foldl blockTxStep (mp, st) with ⟨mpF, stF⟩
    rfl
  · intro mp' st' h
    unfold handle_resp_block at h
    cases hq : st.seq_message_queue with
    | nil =>
      rw [hq] at h
      simp only [Option.bind_eq_bind, Option.some_bind, Option.some.injEq,
        Prod.mk.injEq] at h
      obtain ⟨hmp, -⟩ := h
      rw [← hmp]
      exact lookup_mapInsert_self block.hash block _
    | cons msg rest =>
      cases msg with
      | blockHashConnected bh s =>
        rw [hq] at h
        dsimp only at h
        by_cases hbh : bh = block.hash
        · rw [if_pos hbh] at h
          rcases hF : block.tx.foldl blockTxStep (mp, st) with ⟨mpF, stF⟩
          rw [hF] at h
          simp only [Option.bind_eq_bind, Option.some_bind, Option.some.injEq,
            Prod.mk.injEq] at h
          obtain ⟨hmp, -⟩ := h
          rw [← hmp]
          exact lookup_mapInsert_self block.hash block _
        · rw [if_neg hbh] at h
          simp only [Option.bind_eq_bind, Option.some_bind, Option.some.injEq,
            Prod.mk.injEq] at h
          obtain ⟨hmp, -⟩ := h
          rw [← hmp]
          exact lookup_mapInsert_self block.hash block _
      | blockHashDisconnected bh s =>
        rw [hq] at h
        dsimp only at h
        by_cases hcond : bh = block.hash ∧ mp.chain.tip = block.hash
        · rw [if_pos hcond] at h
          cases hbtx : block.tx with
          | nil =>
            rw [hbtx] at h
            simp only [Option.bind_eq_bind, Option.some_bind,
              Option.some.injEq, Prod.mk.injEq] at h
            obtain ⟨hmp, -⟩ := h
            rw [← hmp]
            exact lookup_mapInsert_self block.hash block _
          | cons t tl => rw [hbtx] at h; cases h
        · rw [if_neg hcond] at h
          simp only [Option.bind_eq_bind, Option.some_bind, Option.some.injEq,
            Prod.mk.injEq] at h
          obtain ⟨hmp, -⟩ := h
          rw [← hmp]
          exact lookup_mapInsert_self block.hash block _
      | txHashAdded t m z =>
        rw [hq] at h
        simp only [Option.bind_eq_bind, Option.some_bind, Option.some.injEq,
          Prod.mk.injEq] at h
        obtain ⟨hmp, -⟩ := h
        rw [← hmp]
        exact lookup_mapInsert_self block.hash block _
      | txHashRemoved t m z =>
        rw [hq] at h
        simp only [Option.bind_eq_bind, Option.some_bind, Option.some.injEq,
          Prod.mk.injEq] at h
        obtain ⟨hmp, -⟩ := h
        rw [← hmp]
        exact lookup_mapInsert_self block.hash block _
  · constructor
    · intro h
      unfold handle_resp_block at h
      cases hq : st.seq_message_queue with
      | nil => rw [hq] at h; cases h
      | cons msg rest =>
        cases msg with
        | blockHashConnected bh s =>
          rw [hq] at h
          dsimp only at h
          by_cases hbh : bh = block.hash
          · rw [if_pos hbh] at h
            rcases hF : block.tx.foldl blockTxStep (mp, st) with ⟨mpF, stF⟩
            rw [hF] at h
            cases h
          · rw [if_neg hbh] at h
            cases h
        | blockHashDisconnected bh s =>
          rw [hq] at h
          dsimp only at h
          by_cases hcond : bh = block.hash ∧ mp.chain.tip = block.hash
          · rw [if_pos hcond] at h
            cases hbtx : block.tx with
            | nil => rw [hbtx] at h; cases h
            | cons t tl =>
              obtain ⟨hbh, htip⟩ := hcond
              subst hbh
              exact ⟨s, rest, rfl, htip, by simp⟩
          · rw [if_neg hcond] at h
            cases h
        | txHashAdded t m z => rw [hq] at h; cases h
        | txHashRemoved t m z => rw [hq] at h; cases h
    · rintro ⟨s, rest, hq, htip, hne⟩
      unfold handle_resp_block
      rw [hq]
      dsimp only
      rw [if_pos ⟨rfl, htip⟩]
      cases hbtx : block.tx with
      | nil => exact absurd hbtx hne
      | cons t tl => rfl

/-- C4 counterexample: on a matching disconnect event for a block with a
transaction, `handle_resp_block` panics (the re-admission `todo!()`), so
no state is produced and the fetched block is *not* inserted into
`chain.blocks` — refuting "in every case the fetched block is inserted". -/
theorem handle_resp_block_disconnect_uncached :
    handle_resp_block dMp dSt dBlk = none := by decide

/-- Witness for the amended C4 at a concrete input: a matching connect
removes the block's txid from mempool and request queue, advances the
tip, pops the event, and caches the block. -/
theorem handle_resp_block_cases_witness :
    handle_resp_block wMpR wSt4 wBlkC8 = some (wMp4A, wSt4A) ∧
      List.lookup 2 wMp4A.txs = none ∧
      wMp4A.chain.tip = 7 ∧
      wSt4A.seq_message_queue = [] ∧
      List.lookup 7 wMp4A.chain.blocks = some wBlkC8 := by
  have h1 : handle_resp_block wMpR wSt4 wBlkC8 = some (wMp4A, wSt4A) := by
    decide
  have HC := (handle_resp_block_cases wMpR wSt4 wBlkC8).1 0 [] wMp4A wSt4A
    rfl h1
  exact ⟨h1, HC.1 2 (by decide), HC.2.1, HC.2.2.2.1, HC.2.2.2.2.2⟩
